import Mathlib

/-!
Verification of the computational core of `app13-1.py` (drone-survey
flight-planning tool).  The Python functions are shallowly embedded over
exact rationals: IEEE doubles become `ℚ`, the transcendental functions of
`math` become fields of an explicit `PyMath` parameter (no claim below
depends on their values), Streamlit diagnostics (`st.error`, `st.warning`)
become an explicit `List Diag` result component, and XML documents become
an explicit element tree.
-/

/-- Streamlit diagnostic sink: `st.warning` / `st.error` calls are modelled
as values accumulated alongside a function's result. -/
inductive Diag where
  | warning (msg : String)
  | error (msg : String)
deriving DecidableEq

/-- The `math` functions used by `app13-1.py`, abstracted: the claims below
hold for every interpretation of them. -/
structure PyMath where
  sin : ℚ → ℚ
  cos : ℚ → ℚ
  sqrt : ℚ → ℚ
  atan2 : ℚ → ℚ → ℚ
  radians : ℚ → ℚ

/-- Round half to even, the rounding used by Python `round` and by fixed-point
string formatting of nonnegative values. -/
def roundHalfEven (q : ℚ) : ℤ :=
  if q - ⌊q⌋ < 1/2 then ⌊q⌋
  else if 1/2 < q - ⌊q⌋ then ⌊q⌋ + 1
  else if ⌊q⌋ % 2 = 0 then ⌊q⌋ else ⌊q⌋ + 1

/-- The decimal digit character for `n % 10`. -/
def digitChar (n : ℕ) : Char := Char.ofNat (48 + n % 10)

/-- Models the Python format spec `02d` on a nonnegative integer: zero-pad on
the left to width 2. -/
def pad2 (n : ℕ) : String := if n < 10 then "0" ++ Nat.repr n else Nat.repr n

/-- The four decimal digits of `n` (`n < 10000` at every use site), zero-padded
to width 4. -/
def pad4 (n : ℕ) : String :=
  String.mk [digitChar (n / 1000), digitChar (n / 100), digitChar (n / 10), digitChar n]

/-- Models the Python format spec `.4f` on a nonnegative value: fixed four
decimal places, rounding half to even. -/
def formatFixed4 (q : ℚ) : String :=
  Nat.repr ((roundHalfEven (q * 10000)).toNat / 10000) ++ "." ++
    pad4 ((roundHalfEven (q * 10000)).toNat % 10000)

/-- Models the Python slice `s[2:]`: drop the first two characters. -/
def pySlice2 (s : String) : String := String.mk (s.data.drop 2)

/-- Models `s.ljust(n, "0")`: pad on the right with zeros up to length `n`. -/
def ljustZero (s : String) (n : ℕ) : String :=
  String.mk (s.data ++ List.replicate (n - s.data.length) (digitChar 0))

/-- `app13-1.py` lines 29-32: the direction letter of
`decimal_to_dms_formatted`. -/
def dms_dir (decimal : ℚ) (is_lat : Bool) : String :=
  if is_lat then (if decimal ≥ 0 then "N" else "S")
  else (if decimal ≥ 0 then "E" else "W")

/-- `app13-1.py` line 34: `abs_val = abs(decimal)`. -/
def dms_abs (decimal : ℚ) : ℚ := |decimal|

/-- `app13-1.py` line 37: `deg = int(abs_val)` (truncation of a nonnegative
value, i.e. the floor). -/
def dms_deg_raw (decimal : ℚ) : ℕ := (⌊dms_abs decimal⌋).toNat

/-- `app13-1.py` line 38: `min_full = (abs_val - deg) * 60`. -/
def dms_min_full (decimal : ℚ) : ℚ := (dms_abs decimal - (dms_deg_raw decimal : ℚ)) * 60

/-- `app13-1.py` line 39: `min_val = int(min_full)`. -/
def dms_min_raw (decimal : ℚ) : ℕ := (⌊dms_min_full decimal⌋).toNat

/-- `app13-1.py` line 40: `sec = (min_full - min_val) * 60`. -/
def dms_sec_raw (decimal : ℚ) : ℚ := (dms_min_full decimal - (dms_min_raw decimal : ℚ)) * 60

/-- `app13-1.py` lines 43-48: the floating-point carry guard.  If
`sec >= 59.99995` then seconds become `0.0` and minutes are incremented; if
minutes then reach 60 they reset to 0 and degrees are incremented.  Returns
the final `(deg, min_val, sec)` triple. -/
def dms_carried (decimal : ℚ) : ℕ × ℕ × ℚ :=
  if dms_sec_raw decimal ≥ 59.99995 then
    (if 60 ≤ dms_min_raw decimal + 1 then (dms_deg_raw decimal + 1, 0, 0)
     else (dms_deg_raw decimal, dms_min_raw decimal + 1, 0))
  else (dms_deg_raw decimal, dms_min_raw decimal, dms_sec_raw decimal)

/-- `app13-1.py` line 55: `sec_int = int(sec)` (on the post-guard seconds). -/
def dms_sec_int (decimal : ℚ) : ℕ := (⌊(dms_carried decimal).2.2⌋).toNat

/-- `app13-1.py` line 56: `sec_frac = sec - sec_int`. -/
def dms_sec_frac (decimal : ℚ) : ℚ := (dms_carried decimal).2.2 - (dms_sec_int decimal : ℚ)

/-- `app13-1.py` lines 27-66, `decimal_to_dms_formatted(decimal, is_lat)`:
format a decimal degree value as `DD°MM'SS.SSSS"X`.  Line 59 is
`f"{sec_frac:.4f}"[2:]`, lines 60-61 the `ljust` repair, line 64 the
two-digit integer seconds, line 66 the final assembly. -/
def decimal_to_dms_formatted (decimal : ℚ) (is_lat : Bool) : String :=
  let deg_str := pad2 (dms_carried decimal).1
  let min_str := pad2 (dms_carried decimal).2.1
  let sec_frac_sliced := pySlice2 (formatFixed4 (dms_sec_frac decimal))
  let sec_frac_fmt :=
    if sec_frac_sliced.length < 4 then ljustZero sec_frac_sliced 4 else sec_frac_sliced
  let sec_fmt := pad2 (dms_sec_int decimal) ++ "." ++ sec_frac_fmt
  deg_str ++ "°" ++ min_str ++ "\x27" ++ sec_fmt ++ "\"" ++ dms_dir decimal is_lat

/-- Concrete input whose naive DMS decomposition yields exactly 0 degrees,
59 minutes, 59.99996 seconds. -/
def carrySample : ℚ := 89999999/90000000

/-! ### Distance and area engines -/

/-- `app13-1.py` lines 69-88, `calculate_distance(lat1, lon1, lat2, lon2)`:
haversine distance in metres between two coordinates.  An out-of-range input
raises `ValueError` inside the `try`; the handler reports `st.error` and
returns 0, so that outcome is modelled directly. -/
def calculate_distance (M : PyMath) (lat1 lon1 lat2 lon2 : ℚ) : ℚ × List Diag :=
  let R : ℚ := 6371000
  if ¬ ((-90 ≤ lat1 ∧ lat1 ≤ 90) ∧ (-90 ≤ lat2 ∧ lat2 ≤ 90)) ∨
      ¬ ((-180 ≤ lon1 ∧ lon1 ≤ 180) ∧ (-180 ≤ lon2 ∧ lon2 ≤ 180)) then
    (0, [Diag.error "Distance calculation error"])
  else
    let lat1r := M.radians lat1
    let lon1r := M.radians lon1
    let lat2r := M.radians lat2
    let lon2r := M.radians lon2
    let dlat := lat2r - lat1r
    let dlon := lon2r - lon1r
    let a := M.sin (dlat / 2) ^ 2 + M.cos lat1r * M.cos lat2r * M.sin (dlon / 2) ^ 2
    let c := 2 * M.atan2 (M.sqrt a) (M.sqrt (1 - a))
    (R * c, [])

/-- `app13-1.py` lines 90-97, `calculate_polyline_length(coordinates)`:
`for i in range(len(coordinates) - 1)`, accumulating `calculate_distance`
over the pairs `coordinates[i]`, `coordinates[i+1]`.  The loop indices are
always in range, so the `getD` default is never consulted. -/
def calculate_polyline_length (M : PyMath) (coordinates : List (ℚ × ℚ)) : ℚ × List Diag :=
  (List.range (coordinates.length - 1)).foldl
    (fun total_distance i =>
      (total_distance.1 +
        (calculate_distance M (coordinates.getD i (0, 0)).1 (coordinates.getD i (0, 0)).2
          (coordinates.getD (i + 1) (0, 0)).1 (coordinates.getD (i + 1) (0, 0)).2).1,
       total_distance.2 ++
        (calculate_distance M (coordinates.getD i (0, 0)).1 (coordinates.getD i (0, 0)).2
          (coordinates.getD (i + 1) (0, 0)).1 (coordinates.getD (i + 1) (0, 0)).2).2))
    (0, [])

/-- `app13-1.py` lines 130-155, `calculate_polygon_area_approximate(coordinates)`:
fewer than 3 points return 0; otherwise `for i in range(n): j = (i + 1) % n`,
accumulating `(lon2_rad - lon1_rad) * (2 + sin(lat1_rad) + sin(lat2_rad))`,
and the result is `abs(area) * R * R / 2.0` square metres over 10000. -/
def calculate_polygon_area_approximate (M : PyMath) (coordinates : List (ℚ × ℚ)) : ℚ :=
  if coordinates.length < 3 then 0
  else
    |(List.range coordinates.length).foldl
        (fun area i =>
          area + (M.radians (coordinates.getD ((i + 1) % coordinates.length) (0, 0)).2 -
                   M.radians (coordinates.getD i (0, 0)).2) *
                 (2 + M.sin (M.radians (coordinates.getD i (0, 0)).1) +
                   M.sin (M.radians (coordinates.getD ((i + 1) % coordinates.length) (0, 0)).1)))
        0| * 6371000 * 6371000 / 2 / 10000

/-- §4.2's reading of a polyline: its list of consecutive point pairs, with
no closing pair. -/
def consecutivePairs (l : List (ℚ × ℚ)) : List ((ℚ × ℚ) × (ℚ × ℚ)) := l.zip l.tail

/-- §4.3's reading of a polygon boundary: consecutive point pairs including
the closing pair wrapping the last point back to the first. -/
def wrappedPairs (l : List (ℚ × ℚ)) : List ((ℚ × ℚ) × (ℚ × ℚ)) := l.zip (l.rotate 1)

/-- One spherical-excess accumulation term of §4.3, for the pair `(p, q)`:
`(lon2_rad - lon1_rad) * (2 + sin(lat1_rad) + sin(lat2_rad))`. -/
def sphericalExcessTerm (M : PyMath) (p q : ℚ × ℚ) : ℚ :=
  (M.radians q.2 - M.radians p.2) * (2 + M.sin (M.radians p.1) + M.sin (M.radians q.1))

/-- The spec-side spherical-excess sum: the accumulation term over every
wrapped consecutive pair. -/
def sphericalExcessSum (M : PyMath) (l : List (ℚ × ℚ)) : ℚ :=
  ((wrappedPairs l).map (fun pq => sphericalExcessTerm M pq.1 pq.2)).sum

/-- A concrete interpretation of the `math` functions, used only to
instantiate witnesses. -/
def mathZero : PyMath :=
  { sin := fun _ => 0, cos := fun _ => 0, sqrt := fun _ => 0,
    atan2 := fun _ _ => 0, radians := fun _ => 0 }

/-- `app13-1.py` lines 298-307, `ensure_lat_lon_order(coord)`: for a
two-element coordinate, keep it if it already reads as an in-range
`[lat, lon]`; otherwise swap it if it reads as an in-range `[lon, lat]`;
otherwise (and for any other length) return it unchanged. -/
def ensure_lat_lon_order (coord : List ℚ) : List ℚ :=
  if coord.length = 2 then
    if -90 ≤ coord.getD 0 0 ∧ coord.getD 0 0 ≤ 90 ∧
        -180 ≤ coord.getD 1 0 ∧ coord.getD 1 0 ≤ 180 then coord
    else if -180 ≤ coord.getD 0 0 ∧ coord.getD 0 0 ≤ 180 ∧
        -90 ≤ coord.getD 1 0 ∧ coord.getD 1 0 ≤ 90 then
      [coord.getD 1 0, coord.getD 0 0]
    else coord
  else coord

/-! ### KML codec

XML documents are modelled as element trees.  The text of an element is
modelled after the tokenization that `parse_kml` applies to it: splitting on
whitespace gives tokens, splitting a token on commas gives fields, and a
field is either a value `float()` accepts (carried as the exact rational) or
junk on which `float()` raises `ValueError`. -/

/-- One comma-separated field of a `<coordinates>` token. -/
inductive Fld where
  | num (q : ℚ)
  | junk
deriving DecidableEq

/-- One whitespace-separated token: its comma-separated fields. -/
abbrev Token := List Fld

mutual
/-- An XML element: its (namespace-qualified) tag, its tokenized text, and
its child elements in document order. -/
inductive XmlElem where
  | mk (tag : String) (text : List Token) (children : XmlForest)
/-- A list of sibling elements (a separate type so that recursion over the
tree is structural). -/
inductive XmlForest where
  | nil
  | cons (e : XmlElem) (es : XmlForest)
end

def XmlElem.tag : XmlElem → String
  | .mk t _ _ => t

def XmlElem.text : XmlElem → List Token
  | .mk _ x _ => x

def XmlElem.children : XmlElem → XmlForest
  | .mk _ _ cs => cs

mutual
/-- All elements strictly below `e`, in document order. -/
def belowElems : XmlElem → List XmlElem
  | .mk _ _ cs => belowForest cs
def belowForest : XmlForest → List XmlElem
  | .nil => []
  | .cons e es => e :: (belowElems e ++ belowForest es)
end

def toForest : List XmlElem → XmlForest
  | [] => .nil
  | e :: es => .cons e (toForest es)

/-- Build an element from a plain list of children. -/
def mkE (t : String) (x : List Token) (cs : List XmlElem) : XmlElem :=
  .mk t x (toForest cs)

/-- `belowElems` through a plain list of children. -/
def belowL : List XmlElem → List XmlElem
  | [] => []
  | e :: es => e :: (belowElems e ++ belowL es)

/-- Clark notation `{uri}tag`, the qualified-name form in which
`xml.etree.ElementTree` reports and matches namespaced tags. -/
def clark (uri tag : String) : String := "\x7b" ++ uri ++ "\x7d" ++ tag

def KML22 : String := "http://www.opengis.net/kml/2.2"

def KML20 : String := "http://earth.google.com/kml/2.0"

def KML21 : String := "http://earth.google.com/kml/2.1"

/-- `app13-1.py` lines 177-182: the ordered namespace candidate list (each
non-empty entry is the dict `{'kml': uri}`, modelled by its uri). -/
def namespaceCandidates : List (Option String) :=
  [some KML22, some KML20, some KML21, none]

/-- `root.findall('.//TAG')`: every element strictly below the root whose
tag is `TAG`, in document order. -/
def findallTag (root : XmlElem) (t : String) : List XmlElem :=
  (belowElems root).filter (fun e => e.tag == t)

/-- `root.findall('.//P//T')`: elements tagged `T` lying below an element
tagged `P` below the root, enumerated per matching `P` in document order. -/
def findallUnder (root : XmlElem) (p t : String) : List XmlElem :=
  ((belowElems root).filter (fun e => e.tag == p)).flatMap
    (fun e => (belowElems e).filter (fun c => c.tag == t))

/-- `app13-1.py` lines 186-195: the coordinate-element queries of one
namespace candidate.  The source passes the candidate dict as the
`namespaces` argument, but the paths spell the OGC KML 2.2 uri in Clark
notation, so every non-empty candidate searches the 2.2-qualified tags and
the candidate's own uri is never consulted. -/
def candidateCoordElems (root : XmlElem) (ns : Option String) : List XmlElem :=
  match ns with
  | some _ =>
      findallTag root (clark KML22 "coordinates")
        ++ findallUnder root (clark KML22 "Point") (clark KML22 "coordinates")
        ++ findallUnder root (clark KML22 "LinearRing") (clark KML22 "coordinates")
  | none =>
      findallTag root "coordinates"
        ++ findallUnder root "Point" "coordinates"
        ++ findallUnder root "LinearRing" "coordinates"

/-- `app13-1.py` lines 200-212: handle one whitespace token.  With at least
two comma-separated fields, `float()` both fields (junk raises `ValueError`,
caught by `continue`); an in-range pair is appended as `[lat, lon]`, an
out-of-range pair is reported with `st.warning` and skipped. -/
def handleToken (parts : Token) : List (ℚ × ℚ) × List Diag :=
  if 2 ≤ parts.length then
    match parts.getD 0 Fld.junk, parts.getD 1 Fld.junk with
    | Fld.num lon, Fld.num lat =>
        if -90 ≤ lat ∧ lat ≤ 90 ∧ -180 ≤ lon ∧ lon ≤ 180 then ([(lat, lon)], [])
        else ([], [Diag.warning "Skipping invalid coordinates"])
    | Fld.num _, Fld.junk => ([], [])
    | Fld.junk, _ => ([], [])
  else ([], [])

/-- The token loop of `app13-1.py` lines 200-212 over one element's text. -/
def extractTokens : List Token → List (ℚ × ℚ) × List Diag
  | [] => ([], [])
  | tok :: toks =>
      ((handleToken tok).1 ++ (extractTokens toks).1,
       (handleToken tok).2 ++ (extractTokens toks).2)

/-- `app13-1.py` lines 197-212: the element loop.  (`if elem.text:` guards a
`None`/empty text, whose token list is empty anyway.) -/
def extractElems : List XmlElem → List (ℚ × ℚ) × List Diag
  | [] => ([], [])
  | e :: es =>
      ((extractTokens e.text).1 ++ (extractElems es).1,
       (extractTokens e.text).2 ++ (extractElems es).2)

/-- `app13-1.py` lines 184-218: the namespace-candidate loop.  `coords` is
accumulated across candidates and `if coords: break` stops at the first
candidate after which it is non-empty. -/
def probeLoop (root : XmlElem) :
    List (Option String) → List (ℚ × ℚ) × List Diag → List (ℚ × ℚ) × List Diag
  | [], acc => acc
  | ns :: rest, acc =>
      let step := extractElems (candidateCoordElems root ns)
      let acc2 := (acc.1 ++ step.1, acc.2 ++ step.2)
      if acc2.1.isEmpty then probeLoop root rest acc2 else acc2

def probeCoords (root : XmlElem) : List (ℚ × ℚ) × List Diag :=
  probeLoop root namespaceCandidates ([], [])

/-- Python `round(q, 6)`: round half to even at the sixth decimal place. -/
def round6 (q : ℚ) : ℚ := (roundHalfEven (q * 1000000) : ℚ) / 1000000

/-- The dedup key of `app13-1.py` line 224:
`(round(coord[0], 6), round(coord[1], 6))`. -/
def coordKey (c : ℚ × ℚ) : ℚ × ℚ := (round6 c.1, round6 c.2)

/-- `app13-1.py` lines 220-227: drop coordinates whose rounded key was
already seen, preserving order; the `seen` set is modelled as the list of
keys added so far. -/
def uniqueAux : List (ℚ × ℚ) → List (ℚ × ℚ) → List (ℚ × ℚ)
  | [], _ => []
  | c :: cs, seen =>
      if coordKey c ∈ seen then uniqueAux cs seen
      else c :: uniqueAux cs (coordKey c :: seen)

def uniqueCoords (coords : List (ℚ × ℚ)) : List (ℚ × ℚ) := uniqueAux coords []

/-- The Python exceptions relevant to `parse_kml`. -/
inductive PyExc where
  | parseError
  | typeError
  | unicodeDecodeError
deriving DecidableEq

/-- The possible parse-relevant states of an uploaded file's bytes: they
decode to UTF-8 text that strict XML parsing accepts (carrying the parsed
root element), or to text that strict parsing rejects but a recovering
parser could repair (carrying the repaired root when one exists), or they do
not decode at all. -/
inductive KmlContent where
  | wellFormed (root : XmlElem)
  | malformed (recovered : Option XmlElem)
  | undecodable

/-- Models constructing CPython's `xml.etree.ElementTree.XMLParser` with the
given keyword-argument names: the stdlib constructor accepts only `target`
and `encoding`, and raises `TypeError` on any other keyword — it has no
lxml-style `recover` parameter. -/
def ET_XMLParserCall (kwargs : List String) : Except PyExc Unit :=
  if kwargs.all (fun k => k == "target" || k == "encoding") then .ok ()
  else .error .typeError

/-- `app13-1.py` lines 168-174: decode the upload, try the strict parse,
and on `ET.ParseError` construct `ET.XMLParser(recover=True)` and re-parse
leniently.  Any exception other than the caught `ParseError` escapes to the
outer handler. -/
def tryDecodeParse : KmlContent → Except PyExc XmlElem
  | .undecodable => .error .unicodeDecodeError
  | .wellFormed root => .ok root
  | .malformed recovered =>
      match ET_XMLParserCall ["recover"] with
      | .error e => .error e
      | .ok _ =>
          match recovered with
          | some root => .ok root
          | none => .error .parseError

/-- `app13-1.py` lines 166-233, `parse_kml(file)`: parse, probe the
namespace candidates for coordinates, and deduplicate; any uncaught
exception reaches the outer handler, which reports `st.error` and returns
the empty list. -/
def parse_kml (file : KmlContent) : List (ℚ × ℚ) × List Diag :=
  match tryDecodeParse file with
  | .error _ => ([], [Diag.error "KML Parsing Error"])
  | .ok root =>
      ((uniqueCoords (probeCoords root).1), (probeCoords root).2)

/-- The single `lon,lat,0` token that `create_kml_manual` writes for a
waypoint `(lat, lon)` (Python float-repr round-trips exactly, so the token
re-parses to the same rational). -/
def pointToken (wp : ℚ × ℚ) : Token := [Fld.num wp.2, Fld.num wp.1, Fld.num 0]

/-- `app13-1.py` lines 256-265: the `Placemark/Point` block of one waypoint.
The name `WP{letter}` and the description are non-numeric text, modelled as
junk tokens, so the enumeration index is not otherwise consulted. -/
def wpPlacemark (_i : ℕ) (wp : ℚ × ℚ) : XmlElem :=
  mkE (clark KML22 "Placemark") []
    [ mkE (clark KML22 "name") [[Fld.junk]] [],
      mkE (clark KML22 "description") [[Fld.junk], [Fld.junk]] [],
      mkE (clark KML22 "Point") []
        [ mkE (clark KML22 "coordinates") [pointToken wp] [] ] ]

/-- `app13-1.py` lines 268-290: the `Flight Path` placemark emitted for more
than one waypoint, whose `LineString` lists every waypoint and, for more
than two, repeats the first waypoint to close the loop.  Its line style is
non-coordinate content. -/
def pathPlacemark (waypoints : List (ℚ × ℚ)) : XmlElem :=
  mkE (clark KML22 "Placemark") []
    [ mkE (clark KML22 "name") [[Fld.junk], [Fld.junk]] [],
      mkE (clark KML22 "LineString") []
        [ mkE (clark KML22 "coordinates")
            (waypoints.map pointToken ++
              (if 2 < waypoints.length then (waypoints.take 1).map pointToken else []))
            [] ],
      mkE (clark KML22 "Style") []
        [ mkE (clark KML22 "LineStyle") []
            [ mkE (clark KML22 "color") [[Fld.junk]] [],
              mkE (clark KML22 "width") [[Fld.num 3]] [] ] ] ]

/-- `app13-1.py` lines 246-296, `create_kml_manual(waypoints, date,
kml_filename)`, modelled as the element tree its KML text parses to.  The
document declares `xmlns="http://www.opengis.net/kml/2.2"`, so every tag is
2.2-qualified.  `date` only appears inside the document name (non-numeric
text) and `kml_filename` is never used by the source. -/
def create_kml_manual (waypoints : List (ℚ × ℚ)) (date kml_filename : String) : XmlElem :=
  mkE (clark KML22 "kml") []
    [ mkE (clark KML22 "Document") []
        ([ mkE (clark KML22 "name") [[Fld.junk], [Fld.junk], [Fld.junk]] [],
           mkE (clark KML22 "description") [[Fld.junk], [Fld.junk], [Fld.junk]] [] ]
         ++ (waypoints.enum.map (fun iw => wpPlacemark iw.1 iw.2))
         ++ (if 1 < waypoints.length then [pathPlacemark waypoints] else [])) ]

/-- A well-formed document whose coordinates sit under the Google Earth
KML 2.0 namespace uri, holding the single token `72.5,24.6,0`. -/
def kml20doc : XmlElem :=
  mkE (clark KML20 "kml") []
    [ mkE (clark KML20 "Document") []
        [ mkE (clark KML20 "Placemark") []
            [ mkE (clark KML20 "Point") []
                [ mkE (clark KML20 "coordinates")
                    [[Fld.num (72.5 : ℚ), Fld.num 24.6, Fld.num 0]] [] ] ] ] ]

/-- The `<coordinates>` element generated for one waypoint. -/
def coordElemOf (wp : ℚ × ℚ) : XmlElem :=
  mkE (clark KML22 "coordinates") [pointToken wp] []

/-- The `<Point>` element generated for one waypoint. -/
def pointElemOf (wp : ℚ × ℚ) : XmlElem :=
  mkE (clark KML22 "Point") [] [coordElemOf wp]

/-- The `<coordinates>` element of the generated `LineString`. -/
def pathCoordElem (ws : List (ℚ × ℚ)) : XmlElem :=
  mkE (clark KML22 "coordinates")
    (ws.map pointToken ++ (if 2 < ws.length then (ws.take 1).map pointToken else [])) []

/-- Two sample in-range waypoints for the round-trip witness. -/
def sampleWaypoints : List (ℚ × ℚ) := [(24.6, 72.5), (24.601, 72.501)]

/-! ### Facts about the DMS decomposition -/

theorem dms_abs_nonneg (x : ℚ) : 0 ≤ dms_abs x := abs_nonneg x

theorem dms_deg_raw_cast (x : ℚ) : (dms_deg_raw x : ℚ) = (⌊dms_abs x⌋ : ℚ) := by
  rw [dms_deg_raw]
  exact_mod_cast Int.toNat_of_nonneg (Int.floor_nonneg.mpr (dms_abs_nonneg x))

theorem dms_min_full_nonneg (x : ℚ) : 0 ≤ dms_min_full x := by
  rw [dms_min_full, dms_deg_raw_cast]
  have h := Int.floor_le (dms_abs x)
  linarith

theorem dms_min_full_lt (x : ℚ) : dms_min_full x < 60 := by
  rw [dms_min_full, dms_deg_raw_cast]
  have h := Int.lt_floor_add_one (dms_abs x)
  have h2 : dms_abs x - (⌊dms_abs x⌋ : ℚ) < 1 := by linarith
  linarith

theorem dms_min_raw_cast (x : ℚ) : (dms_min_raw x : ℚ) = (⌊dms_min_full x⌋ : ℚ) := by
  rw [dms_min_raw]
  exact_mod_cast Int.toNat_of_nonneg (Int.floor_nonneg.mpr (dms_min_full_nonneg x))

theorem dms_min_raw_le (x : ℚ) : dms_min_raw x ≤ 59 := by
  have h : ⌊dms_min_full x⌋ < 60 := Int.floor_lt.mpr (by exact_mod_cast dms_min_full_lt x)
  rw [dms_min_raw]
  omega

theorem dms_sec_raw_nonneg (x : ℚ) : 0 ≤ dms_sec_raw x := by
  rw [dms_sec_raw, dms_min_raw_cast]
  have h := Int.floor_le (dms_min_full x)
  linarith

theorem dms_sec_raw_lt (x : ℚ) : dms_sec_raw x < 60 := by
  rw [dms_sec_raw, dms_min_raw_cast]
  have h := Int.lt_floor_add_one (dms_min_full x)
  linarith

theorem dms_carried_min_lt (x : ℚ) : (dms_carried x).2.1 < 60 := by
  have h59 := dms_min_raw_le x
  rw [dms_carried]
  split_ifs <;> simp <;> omega

theorem dms_carried_sec_nonneg (x : ℚ) : 0 ≤ (dms_carried x).2.2 := by
  have h := dms_sec_raw_nonneg x
  rw [dms_carried]
  split_ifs <;> simp [h]

theorem dms_carried_sec_lt (x : ℚ) : (dms_carried x).2.2 < 60 := by
  have h := dms_sec_raw_lt x
  rw [dms_carried]
  split_ifs <;> simp [h]

theorem dms_sec_int_cast (x : ℚ) : (dms_sec_int x : ℚ) = (⌊(dms_carried x).2.2⌋ : ℚ) := by
  rw [dms_sec_int]
  exact_mod_cast Int.toNat_of_nonneg (Int.floor_nonneg.mpr (dms_carried_sec_nonneg x))

theorem dms_sec_int_le (x : ℚ) : dms_sec_int x ≤ 59 := by
  have h : ⌊(dms_carried x).2.2⌋ < 60 := Int.floor_lt.mpr (by exact_mod_cast dms_carried_sec_lt x)
  rw [dms_sec_int]
  omega

theorem dms_sec_frac_nonneg (x : ℚ) : 0 ≤ dms_sec_frac x := by
  rw [dms_sec_frac, dms_sec_int_cast]
  have h := Int.floor_le ((dms_carried x).2.2)
  linarith

theorem dms_sec_frac_lt_one (x : ℚ) : dms_sec_frac x < 1 := by
  rw [dms_sec_frac, dms_sec_int_cast]
  have h := Int.lt_floor_add_one ((dms_carried x).2.2)
  linarith

/-! ### Facts about the rounding and string plumbing -/

theorem roundHalfEven_nonneg {q : ℚ} (h : 0 ≤ q) : 0 ≤ roundHalfEven q := by
  have hf : 0 ≤ ⌊q⌋ := Int.floor_nonneg.mpr h
  rw [roundHalfEven]
  split_ifs <;> omega

theorem roundHalfEven_le {q : ℚ} {m : ℤ} (h : q ≤ (m : ℚ)) : roundHalfEven q ≤ m := by
  have hf : ⌊q⌋ ≤ m := by
    have := Int.floor_le_floor h
    simpa using this
  rw [roundHalfEven]
  split_ifs with h1 h2 h3
  · exact hf
  · rcases lt_or_eq_of_le hf with hlt | heq
    · omega
    · exfalso
      have : q - (⌊q⌋ : ℚ) ≤ 0 := by
        rw [heq]
        linarith
      linarith
  · exact hf
  · rcases lt_or_eq_of_le hf with hlt | heq
    · omega
    · exfalso
      push_neg at h1
      have : q - (⌊q⌋ : ℚ) ≤ 0 := by
        rw [heq]
        linarith
      linarith

theorem pad4_length (n : ℕ) : (pad4 n).length = 4 := rfl

theorem pySlice2_formatFixed4 {q : ℚ} (h0 : 0 ≤ q) (h1 : q < 1) :
    pySlice2 (formatFixed4 q) = pad4 ((roundHalfEven (q * 10000)).toNat % 10000) := by
  have hr1 : roundHalfEven (q * 10000) ≤ (10000 : ℤ) := by
    apply roundHalfEven_le
    push_cast
    linarith
  rcases Nat.lt_or_ge ((roundHalfEven (q * 10000)).toNat) 10000 with ht | ht
  · simp only [pySlice2, formatFixed4]
    rw [Nat.div_eq_of_lt ht, Nat.mod_eq_of_lt ht]
    rfl
  · have ht' : (roundHalfEven (q * 10000)).toNat = 10000 := by omega
    simp only [pySlice2, formatFixed4]
    rw [ht']
    rfl

/-- C4: for every decimal-degree input, `decimal_to_dms_formatted` decomposes
the absolute value into integer degrees, integer minutes and seconds to four
decimal places, and returns exactly the fixed-format string `DD°MM'SS.SSSS"X`
(degrees and minutes zero-padded to two digits, seconds two integer digits
plus four fractional digits), with direction letter N/E for non-negative
values (zero included) and S/W for negative; and
`format_dms(0.0, true) = "00°00'00.0000\"N"`. -/
theorem dms_fixed_format :
    (∀ (decimal : ℚ) (is_lat : Bool), ∃ d m si f : ℕ,
      decimal_to_dms_formatted decimal is_lat =
        pad2 d ++ "°" ++ pad2 m ++ "\x27" ++ pad2 si ++ "." ++ pad4 f ++ "\"" ++
          (if is_lat then (if decimal ≥ 0 then "N" else "S")
           else (if decimal ≥ 0 then "E" else "W")) ∧
      d = (dms_carried decimal).1 ∧ m = (dms_carried decimal).2.1 ∧
      si = dms_sec_int decimal ∧ m < 60 ∧ si < 60 ∧ f < 10000) ∧
    decimal_to_dms_formatted 0 true = "00°00\x2700.0000\"N" := by
  constructor
  · intro decimal is_lat
    refine ⟨(dms_carried decimal).1, (dms_carried decimal).2.1, dms_sec_int decimal,
      (roundHalfEven (dms_sec_frac decimal * 10000)).toNat % 10000, ?_, rfl, rfl, rfl,
      dms_carried_min_lt decimal, by have := dms_sec_int_le decimal; omega,
      Nat.mod_lt _ (by norm_num)⟩
    simp only [decimal_to_dms_formatted, dms_dir]
    rw [pySlice2_formatFixed4 (dms_sec_frac_nonneg decimal) (dms_sec_frac_lt_one decimal)]
    rw [pad4_length]
    norm_num
    simp only [String.append_assoc]
  · norm_num [decimal_to_dms_formatted, dms_carried, dms_sec_raw, dms_min_full,
      dms_min_raw, dms_deg_raw, dms_abs, dms_sec_int, dms_sec_frac, dms_dir,
      formatFixed4, roundHalfEven, pySlice2, pad2, pad4, ljustZero, digitChar]
    rfl

/-- C3: whenever the computed seconds value is at least `59.99995`, the carry
guard of `decimal_to_dms_formatted` resets seconds to 0 and increments
minutes, rolling minutes that reach 60 over into degrees, and the rendered
seconds field reads `00.0000` (never `60.0000`). -/
theorem dms_seconds_carry (decimal : ℚ) (is_lat : Bool)
    (h : dms_sec_raw decimal ≥ 59.99995) :
    dms_carried decimal =
      (if 60 ≤ dms_min_raw decimal + 1 then (dms_deg_raw decimal + 1, 0, (0 : ℚ))
       else (dms_deg_raw decimal, dms_min_raw decimal + 1, (0 : ℚ))) ∧
    decimal_to_dms_formatted decimal is_lat =
      pad2 (dms_carried decimal).1 ++ "°" ++ pad2 (dms_carried decimal).2.1 ++ "\x27" ++
        "00.0000" ++ "\"" ++ dms_dir decimal is_lat := by
  have hc : dms_carried decimal =
      (if 60 ≤ dms_min_raw decimal + 1 then (dms_deg_raw decimal + 1, 0, (0 : ℚ))
       else (dms_deg_raw decimal, dms_min_raw decimal + 1, (0 : ℚ))) := by
    rw [dms_carried, if_pos h]
  refine ⟨hc, ?_⟩
  have hsec : (dms_carried decimal).2.2 = 0 := by
    rw [hc]
    split_ifs <;> rfl
  have hsi : dms_sec_int decimal = 0 := by
    rw [dms_sec_int, hsec]
    rfl
  have hfrac : dms_sec_frac decimal = 0 := by
    rw [dms_sec_frac, hsec, hsi]
    norm_num
  have hfmt : pySlice2 (formatFixed4 0) = "0000" := by
    norm_num [formatFixed4, roundHalfEven, pySlice2]
    rfl
  simp only [decimal_to_dms_formatted]
  rw [hfrac, hfmt, hsi]
  rw [if_neg (by decide : ¬("0000" : String).length < 4)]
  rfl

/-- Witness for `dms_seconds_carry`: at `carrySample` the seconds guard fires
and the formatter rolls the minute over. -/
theorem dms_seconds_carry_witness :
    dms_sec_raw carrySample ≥ 59.99995 ∧
    (dms_carried carrySample =
      (if 60 ≤ dms_min_raw carrySample + 1 then (dms_deg_raw carrySample + 1, 0, (0 : ℚ))
       else (dms_deg_raw carrySample, dms_min_raw carrySample + 1, (0 : ℚ))) ∧
     decimal_to_dms_formatted carrySample true =
      pad2 (dms_carried carrySample).1 ++ "°" ++ pad2 (dms_carried carrySample).2.1 ++
        "\x27" ++ "00.0000" ++ "\"" ++ dms_dir carrySample true) := by
  have h0 : dms_abs carrySample = 89999999/90000000 := by
    rw [dms_abs, carrySample, abs_of_nonneg (by norm_num)]
  have h1 : dms_deg_raw carrySample = 0 := by
    rw [dms_deg_raw, h0]
    norm_num
  have h2 : dms_min_full carrySample = 89999999/1500000 := by
    rw [dms_min_full, h1, h0]
    norm_num
  have h3 : dms_min_raw carrySample = 59 := by
    rw [dms_min_raw, h2]
    norm_num
    rfl
  have h4 : dms_sec_raw carrySample = 1499999/25000 := by
    rw [dms_sec_raw, h3, h2]
    norm_num
  have hyp : dms_sec_raw carrySample ≥ 59.99995 := by
    rw [h4]
    norm_num
  exact ⟨hyp, dms_seconds_carry carrySample true hyp⟩

/-! ### Facts about the distance and area loops -/

theorem foldl_add_pair (g : ℕ → ℚ) (w : ℕ → List Diag) :
    ∀ (idxs : List ℕ) (a : ℚ) (ds : List Diag),
      (idxs.foldl (fun acc i => (acc.1 + g i, acc.2 ++ w i)) (a, ds)).1 = a + (idxs.map g).sum
  | [], a, ds => by simp
  | i :: idxs, a, ds => by
    simp only [List.foldl_cons, List.map_cons, List.sum_cons]
    rw [foldl_add_pair g w idxs (a + g i) (ds ++ w i)]
    ring

theorem foldl_add (g : ℕ → ℚ) :
    ∀ (idxs : List ℕ) (a : ℚ),
      idxs.foldl (fun acc i => acc + g i) a = a + (idxs.map g).sum
  | [], a => by simp
  | i :: idxs, a => by
    simp only [List.foldl_cons, List.map_cons, List.sum_cons]
    rw [foldl_add g idxs (a + g i)]
    ring

theorem range_map_consecutive (D : (ℚ × ℚ) → (ℚ × ℚ) → ℚ) :
    ∀ l : List (ℚ × ℚ),
      (List.range (l.length - 1)).map (fun i => D (l.getD i (0, 0)) (l.getD (i + 1) (0, 0)))
      = (consecutivePairs l).map (fun pq => D pq.1 pq.2)
  | [] => by simp [consecutivePairs]
  | [p] => by simp [consecutivePairs]
  | p :: q :: t => by
    have IH := range_map_consecutive D (q :: t)
    simp only [consecutivePairs, List.tail_cons] at IH ⊢
    simp only [List.length_cons, Nat.add_sub_cancel] at IH ⊢
    rw [List.range_succ_eq_map]
    simp only [List.map_cons, List.map_map, List.zip_cons_cons, List.getD_cons_zero,
      List.getD_cons_succ]
    refine congrArg (List.cons _) ?_
    rw [← IH]
    rfl

theorem range_map_wrapped (T : (ℚ × ℚ) → (ℚ × ℚ) → ℚ) (l : List (ℚ × ℚ)) (hl : l ≠ []) :
    (List.range l.length).map
      (fun i => T (l.getD i (0, 0)) (l.getD ((i + 1) % l.length) (0, 0)))
    = (wrappedPairs l).map (fun pq => T pq.1 pq.2) := by
  have hlen : (wrappedPairs l).length = l.length := by
    simp [wrappedPairs, List.length_zip, List.length_rotate]
  apply List.ext_getElem
  · simp [hlen]
  · intro i h1 h2
    have hi : i < l.length := by simpa using h1
    have hi1 : (i + 1) % l.length < l.length := Nat.mod_lt _ (by omega)
    have hrot : i < (l.rotate 1).length := by simpa [List.length_rotate] using hi
    simp only [List.getElem_map, List.getElem_range, wrappedPairs, List.getElem_zip]
    rw [List.getD_eq_getElem l (0, 0) hi, List.getD_eq_getElem l (0, 0) hi1]
    rw [List.getElem_rotate l 1 i hrot]

/-- C8: the polyline length is the sum of the point-to-point distance over
the `n - 1` consecutive pairs, with no closing edge from the last point back
to the first, and it is 0 for the empty and the one-point sequence. -/
theorem polyline_length_consecutive_sum (M : PyMath) (coordinates : List (ℚ × ℚ)) :
    (calculate_polyline_length M coordinates).1 =
      ((consecutivePairs coordinates).map
        (fun pq => (calculate_distance M pq.1.1 pq.1.2 pq.2.1 pq.2.2).1)).sum ∧
    (consecutivePairs coordinates).length = coordinates.length - 1 ∧
    (calculate_polyline_length M []).1 = 0 ∧
    ∀ p : ℚ × ℚ, (calculate_polyline_length M [p]).1 = 0 := by
  refine ⟨?_, ?_, by rfl, fun p => by rfl⟩
  · rw [calculate_polyline_length]
    rw [foldl_add_pair]
    rw [range_map_consecutive (fun p q => (calculate_distance M p.1 p.2 q.1 q.2).1) coordinates]
    simp
  · simp [consecutivePairs, List.length_zip, List.length_tail]

/-- C6: for at least 3 points the fallback area method returns
`|Σ (lon2_rad - lon1_rad) * (2 + sin lat1_rad + sin lat2_rad)| * R² / 2`
square metres (R = 6371000) over the consecutive pairs wrapping the last
point back to the first, divided by 10000 for hectares; for fewer than 3
points it returns 0. -/
theorem polygon_area_approximate_spec (M : PyMath) (coordinates : List (ℚ × ℚ)) :
    calculate_polygon_area_approximate M coordinates =
      if coordinates.length < 3 then 0
      else |sphericalExcessSum M coordinates| * 6371000 ^ 2 / 2 / 10000 := by
  rcases Nat.lt_or_ge coordinates.length 3 with h3 | h3
  · rw [calculate_polygon_area_approximate, if_pos h3, if_pos h3]
  · have hne : coordinates ≠ [] := by
      intro h
      rw [h] at h3
      simp at h3
    rw [calculate_polygon_area_approximate, if_neg (by omega), if_neg (by omega)]
    rw [foldl_add]
    have hw := range_map_wrapped (fun p q => sphericalExcessTerm M p q) coordinates hne
    simp only [sphericalExcessTerm] at hw
    rw [hw, sphericalExcessSum]
    simp only [sphericalExcessTerm, zero_add]
    ring

/-- C7: whenever either point's latitude is outside `[-90, 90]` or longitude
is outside `[-180, 180]`, `calculate_distance` reports an error diagnostic
and returns 0 to its caller (the exception is caught inside the function). -/
theorem calculate_distance_out_of_range (M : PyMath) (lat1 lon1 lat2 lon2 : ℚ)
    (h : lat1 < -90 ∨ 90 < lat1 ∨ lat2 < -90 ∨ 90 < lat2 ∨
         lon1 < -180 ∨ 180 < lon1 ∨ lon2 < -180 ∨ 180 < lon2) :
    calculate_distance M lat1 lon1 lat2 lon2 =
      (0, [Diag.error "Distance calculation error"]) := by
  rw [calculate_distance]
  rw [if_pos]
  rcases h with h | h | h | h | h | h | h | h
  · exact Or.inl (fun hc => by linarith [hc.1.1])
  · exact Or.inl (fun hc => by linarith [hc.1.2])
  · exact Or.inl (fun hc => by linarith [hc.2.1])
  · exact Or.inl (fun hc => by linarith [hc.2.2])
  · exact Or.inr (fun hc => by linarith [hc.1.1])
  · exact Or.inr (fun hc => by linarith [hc.1.2])
  · exact Or.inr (fun hc => by linarith [hc.2.1])
  · exact Or.inr (fun hc => by linarith [hc.2.2])

/-- Witness for `calculate_distance_out_of_range`: latitude 91 is rejected
with an error diagnostic and distance 0. -/
theorem calculate_distance_out_of_range_witness :
    ((90 : ℚ) < 91 ∨ (91 : ℚ) < -90 ∨ False) ∧
    calculate_distance mathZero 91 0 0 0 =
      (0, [Diag.error "Distance calculation error"]) := by
  constructor
  · exact Or.inl (by norm_num)
  · exact calculate_distance_out_of_range mathZero 91 0 0 0 (Or.inr (Or.inl (by norm_num)))

theorem ensure_pair (a b : ℚ) :
    ensure_lat_lon_order [a, b] =
      if -90 ≤ a ∧ a ≤ 90 ∧ -180 ≤ b ∧ b ≤ 180 then [a, b]
      else if -180 ≤ a ∧ a ≤ 180 ∧ -90 ≤ b ∧ b ≤ 90 then [b, a]
      else [a, b] := by
  rw [ensure_lat_lon_order]
  simp

/-- C10: the axis-order normalizer is idempotent on two-element pairs: a
swapped result satisfies the latitude-first range test, so a second
application leaves it (and any pass-through result) unchanged. -/
theorem ensure_lat_lon_order_idem (a b : ℚ) :
    ensure_lat_lon_order (ensure_lat_lon_order [a, b]) = ensure_lat_lon_order [a, b] := by
  rw [ensure_pair a b]
  split_ifs with h1 h2
  · rw [ensure_pair a b, if_pos h1]
  · rw [ensure_pair b a, if_pos ⟨h2.2.2.1, h2.2.2.2, h2.1, h2.2.1⟩]
  · rw [ensure_pair a b, if_neg h1, if_neg h2]

/-! ### KML parse claims -/

/-- C1: the lenient fallback of `parse_kml` never runs.  After a strict
parse failure the source constructs `ET.XMLParser(recover=True)`, but the
stdlib `XMLParser` has no `recover` keyword, so the construction raises
`TypeError`; the outer handler turns it into an error diagnostic and an
empty result, even when the document is recoverable. -/
theorem parse_kml_malformed_returns_empty :
    ET_XMLParserCall ["recover"] = Except.error PyExc.typeError ∧
    ∀ root : XmlElem,
      parse_kml (KmlContent.malformed (some root)) =
        ([], [Diag.error "KML Parsing Error"]) :=
  ⟨rfl, fun _ => rfl⟩

/-- C2: a document whose coordinates sit under the KML 2.0 namespace uri
yields no points.  Every non-empty namespace candidate searches the
hard-coded 2.2-qualified paths and the bare candidate does not match a
namespaced tag, so no candidate ever matches a 2.0 (or 2.1) document. -/
theorem parse_kml_kml20_namespace_lost :
    parse_kml (KmlContent.wellFormed kml20doc) = ([], []) := rfl

theorem uniqueAux_sublist : ∀ l seen : List (ℚ × ℚ), (uniqueAux l seen).Sublist l
  | [], _ => by
    rw [uniqueAux]
  | c :: cs, seen => by
    rw [uniqueAux]
    split_ifs with h
    · exact (uniqueAux_sublist cs seen).cons c
    · exact (uniqueAux_sublist cs (coordKey c :: seen)).cons₂ c

theorem uniqueAux_keys_fresh : ∀ (l seen : List (ℚ × ℚ)) (k : ℚ × ℚ),
    k ∈ (uniqueAux l seen).map coordKey → k ∉ seen
  | [], _, k, hk => by
    rw [uniqueAux] at hk
    simp at hk
  | c :: cs, seen, k, hk => by
    rw [uniqueAux] at hk
    split_ifs at hk with h
    · exact uniqueAux_keys_fresh cs seen k hk
    · rw [List.map_cons] at hk
      rcases List.mem_cons.mp hk with hk | hk
      · rw [hk]
        exact h
      · intro hs
        exact uniqueAux_keys_fresh cs (coordKey c :: seen) k hk (List.mem_cons_of_mem _ hs)

theorem uniqueAux_keys_nodup : ∀ l seen : List (ℚ × ℚ), ((uniqueAux l seen).map coordKey).Nodup
  | [], _ => by
    rw [uniqueAux]
    exact List.nodup_nil
  | c :: cs, seen => by
    rw [uniqueAux]
    split_ifs with h
    · exact uniqueAux_keys_nodup cs seen
    · rw [List.map_cons]
      refine List.Nodup.cons ?_ (uniqueAux_keys_nodup cs (coordKey c :: seen))
      intro hmem
      exact uniqueAux_keys_fresh cs (coordKey c :: seen) (coordKey c) hmem
        (List.mem_cons_self _ _)

theorem uniqueAux_covers : ∀ (l seen : List (ℚ × ℚ)) (p : ℚ × ℚ), p ∈ l →
    coordKey p ∈ seen ∨ ∃ q ∈ uniqueAux l seen, coordKey q = coordKey p
  | [], _, p, hp => by simp at hp
  | c :: cs, seen, p, hp => by
    rw [uniqueAux]
    split_ifs with h
    · rcases List.mem_cons.mp hp with hp | hp
      · left
        rw [hp]
        exact h
      · exact uniqueAux_covers cs seen p hp
    · rcases List.mem_cons.mp hp with hp | hp
      · right
        exact ⟨c, List.mem_cons_self _ _, by rw [hp]⟩
      · rcases uniqueAux_covers cs (coordKey c :: seen) p hp with hs | ⟨q, hq, hqk⟩
        · rcases List.mem_cons.mp hs with hs | hs
          · right
            exact ⟨c, List.mem_cons_self _ _, hs.symm⟩
          · left
            exact hs
        · right
          exact ⟨q, List.mem_cons_of_mem _ hq, hqk⟩

theorem uniqueAux_keeps_first : ∀ (l1 : List (ℚ × ℚ)) (p : ℚ × ℚ) (l2 seen : List (ℚ × ℚ)),
    coordKey p ∉ seen → (∀ x ∈ l1, coordKey x ≠ coordKey p) →
    p ∈ uniqueAux (l1 ++ p :: l2) seen
  | [], p, l2, seen, hseen, _ => by
    rw [List.nil_append, uniqueAux, if_neg hseen]
    exact List.mem_cons_self _ _
  | x :: l1, p, l2, seen, hseen, hdiff => by
    rw [List.cons_append, uniqueAux]
    split_ifs with h
    · exact uniqueAux_keeps_first l1 p l2 seen hseen
        (fun y hy => hdiff y (List.mem_cons_of_mem _ hy))
    · refine List.mem_cons_of_mem _ (uniqueAux_keeps_first l1 p l2 (coordKey x :: seen) ?_
        (fun y hy => hdiff y (List.mem_cons_of_mem _ hy)))
      intro hc
      rcases List.mem_cons.mp hc with hc | hc
      · exact hdiff x (List.mem_cons_self _ _) hc.symm
      · exact hseen hc

/-- C9: `parse_kml` removes duplicate points — points whose coordinates are
identical after rounding to six decimal places — while preserving
first-occurrence order: the output is an order-preserving sublist of the
collected points, its rounded keys are pairwise distinct, every collected
point is represented by exactly one output point with its rounded key, and
the representative kept for a key is its first occurrence. -/
theorem countP_key_eq_one :
    ∀ (l : List (ℚ × ℚ)), ((l.map coordKey).Nodup) → ∀ p : ℚ × ℚ,
      coordKey p ∈ l.map coordKey →
      l.countP (fun q => decide (coordKey q = coordKey p)) = 1
  | [], _, p, hp => by simp at hp
  | a :: l, hnd, p, hp => by
    rw [List.map_cons, List.nodup_cons] at hnd
    rw [List.countP_cons]
    by_cases ha : coordKey a = coordKey p
    · have hzero : l.countP (fun q => decide (coordKey q = coordKey p)) = 0 := by
        rw [List.countP_eq_zero]
        intro x hx
        simp only [decide_eq_true_eq]
        intro hxk
        exact hnd.1 (by rw [ha, ← hxk]; exact List.mem_map_of_mem coordKey hx)
      rw [hzero]
      simp [ha]
    · have hp' : coordKey p ∈ l.map coordKey := by
        rcases List.mem_cons.mp hp with h | h
        · exact absurd h.symm ha
        · exact h
      rw [countP_key_eq_one l hnd.2 p hp']
      simp [ha]

/-- C9: `parse_kml` removes duplicate points — points whose coordinates are
identical after rounding to six decimal places — while preserving
first-occurrence order: the output is an order-preserving sublist of the
collected points, its rounded keys are pairwise distinct, every collected
point is represented by exactly one output point with its rounded key, and
the representative kept for a key is its first occurrence. -/
theorem parse_kml_dedup (root : XmlElem) :
    (parse_kml (KmlContent.wellFormed root)).1.Sublist (probeCoords root).1 ∧
    ((parse_kml (KmlContent.wellFormed root)).1.map coordKey).Nodup ∧
    (∀ p ∈ (probeCoords root).1,
      (parse_kml (KmlContent.wellFormed root)).1.countP
        (fun q => decide (coordKey q = coordKey p)) = 1) ∧
    (∀ l1 p l2, (probeCoords root).1 = l1 ++ p :: l2 →
      (∀ x ∈ l1, coordKey x ≠ coordKey p) →
      p ∈ (parse_kml (KmlContent.wellFormed root)).1) := by
  have hout : (parse_kml (KmlContent.wellFormed root)).1 =
      uniqueCoords (probeCoords root).1 := rfl
  rw [hout]
  refine ⟨uniqueAux_sublist _ _, uniqueAux_keys_nodup _ _, ?_, ?_⟩
  · intro p hp
    have hcov := uniqueAux_covers (probeCoords root).1 [] p hp
    rcases hcov with hs | ⟨q, hq, hqk⟩
    · simp at hs
    · have hmem : coordKey p ∈ (uniqueCoords (probeCoords root).1).map coordKey := by
        rw [← hqk]
        exact List.mem_map_of_mem coordKey hq
      exact countP_key_eq_one _ (uniqueAux_keys_nodup _ _) p hmem
  · intro l1 p l2 hsplit hdiff
    rw [hsplit]
    exact uniqueAux_keeps_first l1 p l2 [] (by simp) hdiff

/-! ### Facts about the generated KML tree -/

theorem mkE_tag (t : String) (x : List Token) (cs : List XmlElem) : (mkE t x cs).tag = t := rfl

theorem belowForest_toForest : ∀ cs : List XmlElem, belowForest (toForest cs) = belowL cs
  | [] => rfl
  | e :: es => by
    rw [toForest, belowForest, belowL, belowForest_toForest es]

theorem belowElems_mkE (t : String) (x : List Token) (cs : List XmlElem) :
    belowElems (mkE t x cs) = belowL cs := by
  rw [mkE, belowElems, belowForest_toForest]

theorem belowL_append : ∀ l1 l2 : List XmlElem, belowL (l1 ++ l2) = belowL l1 ++ belowL l2
  | [], l2 => by rw [List.nil_append, belowL, List.nil_append]
  | e :: l1, l2 => by
    rw [List.cons_append, belowL, belowL, belowL_append l1 l2]
    simp [List.append_assoc]

theorem belowL_singleton (e : XmlElem) : belowL [e] = e :: belowElems e := by
  rw [belowL, belowL, List.append_nil]

theorem enum_eq_enumFrom (ws : List (ℚ × ℚ)) : ws.enum = List.enumFrom 0 ws := rfl

theorem filter_below_placemarks (P : XmlElem → Bool) :
    ∀ (ws : List (ℚ × ℚ)) (k : ℕ),
      (belowL ((List.enumFrom k ws).map (fun iw => wpPlacemark iw.1 iw.2))).filter P =
      ws.flatMap (fun wp =>
        (wpPlacemark 0 wp :: belowElems (wpPlacemark 0 wp)).filter P)
  | [], k => by simp [belowL]
  | w :: ws, k => by
    rw [List.enumFrom_cons, List.map_cons, belowL, ← List.cons_append, List.filter_append,
      filter_below_placemarks P ws (k + 1), List.flatMap_cons]
    rfl

theorem wp_unit_coords (i : ℕ) (wp : ℚ × ℚ) :
    (wpPlacemark i wp :: belowElems (wpPlacemark i wp)).filter
      (fun e => e.tag == clark KML22 "coordinates") = [coordElemOf wp] := rfl

theorem wp_unit_point (i : ℕ) (wp : ℚ × ℚ) :
    (wpPlacemark i wp :: belowElems (wpPlacemark i wp)).filter
      (fun e => e.tag == clark KML22 "Point") = [pointElemOf wp] := rfl

theorem wp_unit_ring (i : ℕ) (wp : ℚ × ℚ) :
    (wpPlacemark i wp :: belowElems (wpPlacemark i wp)).filter
      (fun e => e.tag == clark KML22 "LinearRing") = [] := rfl

theorem path_unit_coords (ws : List (ℚ × ℚ)) :
    (belowL [pathPlacemark ws]).filter
      (fun e => e.tag == clark KML22 "coordinates") = [pathCoordElem ws] := rfl

theorem path_unit_point (ws : List (ℚ × ℚ)) :
    (belowL [pathPlacemark ws]).filter
      (fun e => e.tag == clark KML22 "Point") = [] := rfl

theorem path_unit_ring (ws : List (ℚ × ℚ)) :
    (belowL [pathPlacemark ws]).filter
      (fun e => e.tag == clark KML22 "LinearRing") = [] := rfl

theorem point_inner_coords (wp : ℚ × ℚ) :
    (belowElems (pointElemOf wp)).filter
      (fun e => e.tag == clark KML22 "coordinates") = [coordElemOf wp] := rfl

theorem flatMap_singleton_map {α β : Type} (g : α → β) :
    ∀ ws : List α, ws.flatMap (fun w => [g w]) = ws.map g
  | [] => rfl
  | w :: ws => by
    rw [List.flatMap_cons, List.map_cons, flatMap_singleton_map g ws]
    rfl

theorem flatMap_const_nil {α β : Type} :
    ∀ ws : List α, ws.flatMap (fun _ => ([] : List β)) = []
  | [] => rfl
  | w :: ws => by
    rw [List.flatMap_cons, flatMap_const_nil ws]
    rfl

theorem flatMap_map_comp {α β γ : Type} (f : α → β) (g : β → List γ) :
    ∀ ws : List α, (ws.map f).flatMap g = ws.flatMap (fun w => g (f w))
  | [] => rfl
  | w :: ws => by
    rw [List.map_cons, List.flatMap_cons, List.flatMap_cons, flatMap_map_comp f g ws]

theorem filter_below_create (t : String) (ws : List (ℚ × ℚ)) (d f : String)
    (hdoc : (clark KML22 "Document" == t) = false)
    (hname : (clark KML22 "name" == t) = false)
    (hdesc : (clark KML22 "description" == t) = false) :
    (belowElems (create_kml_manual ws d f)).filter (fun e => e.tag == t) =
      ws.flatMap (fun wp => (wpPlacemark 0 wp :: belowElems (wpPlacemark 0 wp)).filter
        (fun e => e.tag == t)) ++
      (if 1 < ws.length then
        (belowL [pathPlacemark ws]).filter (fun e => e.tag == t) else []) := by
  rw [create_kml_manual, belowElems_mkE, belowL_singleton, belowElems_mkE]
  rw [belowL_append, belowL_append]
  rw [List.filter_cons]
  simp only [mkE_tag, hdoc, Bool.false_eq_true, if_false]
  rw [List.filter_append, List.filter_append]
  have hhdr : (belowL
      [mkE (clark KML22 "name") [[Fld.junk], [Fld.junk], [Fld.junk]] [],
       mkE (clark KML22 "description") [[Fld.junk], [Fld.junk], [Fld.junk]] []]).filter
        (fun e => e.tag == t) = [] := by
    rw [belowL, belowL, belowL]
    rw [belowElems_mkE, belowElems_mkE, belowL]
    simp only [List.nil_append, List.append_nil, List.filter_cons, mkE_tag, hname, hdesc,
      Bool.false_eq_true, if_false, List.filter_nil]
  rw [hhdr, List.nil_append]
  rw [enum_eq_enumFrom, filter_below_placemarks]
  by_cases h12 : 1 < ws.length
  · rw [if_pos h12, if_pos h12]
  · rw [if_neg h12, if_neg h12]
    rfl

theorem findallTag_create (ws : List (ℚ × ℚ)) (d f : String) :
    findallTag (create_kml_manual ws d f) (clark KML22 "coordinates") =
      ws.map coordElemOf ++ (if 1 < ws.length then [pathCoordElem ws] else []) := by
  rw [findallTag, filter_below_create (clark KML22 "coordinates") ws d f rfl rfl rfl]
  simp only [wp_unit_coords, path_unit_coords]
  rw [flatMap_singleton_map]

theorem findallUnder_point_create (ws : List (ℚ × ℚ)) (d f : String) :
    findallUnder (create_kml_manual ws d f) (clark KML22 "Point") (clark KML22 "coordinates") =
      ws.map coordElemOf := by
  rw [findallUnder, filter_below_create (clark KML22 "Point") ws d f rfl rfl rfl]
  simp only [wp_unit_point, path_unit_point]
  rw [flatMap_singleton_map, ite_self, List.append_nil]
  rw [flatMap_map_comp]
  simp only [point_inner_coords]
  rw [flatMap_singleton_map]

theorem findallUnder_ring_create (ws : List (ℚ × ℚ)) (d f : String) :
    findallUnder (create_kml_manual ws d f) (clark KML22 "LinearRing")
      (clark KML22 "coordinates") = [] := by
  rw [findallUnder, filter_below_create (clark KML22 "LinearRing") ws d f rfl rfl rfl]
  simp only [wp_unit_ring, path_unit_ring]
  rw [flatMap_const_nil, ite_self, List.append_nil]
  rfl

theorem extractElems_append : ∀ l1 l2 : List XmlElem,
    extractElems (l1 ++ l2) =
      ((extractElems l1).1 ++ (extractElems l2).1, (extractElems l1).2 ++ (extractElems l2).2)
  | [], l2 => by simp [extractElems]
  | e :: l1, l2 => by
    rw [List.cons_append, extractElems, extractElems_append l1 l2, extractElems]
    simp [List.append_assoc]

theorem extractTokens_append : ∀ t1 t2 : List Token,
    extractTokens (t1 ++ t2) =
      ((extractTokens t1).1 ++ (extractTokens t2).1, (extractTokens t1).2 ++ (extractTokens t2).2)
  | [], t2 => by simp [extractTokens]
  | tok :: t1, t2 => by
    rw [List.cons_append, extractTokens, extractTokens_append t1 t2, extractTokens]
    simp [List.append_assoc]

theorem handleToken_point (wp : ℚ × ℚ)
    (h : -90 ≤ wp.1 ∧ wp.1 ≤ 90 ∧ -180 ≤ wp.2 ∧ wp.2 ≤ 180) :
    handleToken (pointToken wp) = ([wp], []) := by
  show (if 2 ≤ ([Fld.num wp.2, Fld.num wp.1, Fld.num 0] : Token).length then
      (if -90 ≤ wp.1 ∧ wp.1 ≤ 90 ∧ -180 ≤ wp.2 ∧ wp.2 ≤ 180 then ([(wp.1, wp.2)], [])
       else ([], [Diag.warning "Skipping invalid coordinates"]))
    else ([], [])) = ([wp], [])
  rw [if_pos (by simp), if_pos h]

theorem extractTokens_points : ∀ ts : List (ℚ × ℚ),
    (∀ p ∈ ts, -90 ≤ p.1 ∧ p.1 ≤ 90 ∧ -180 ≤ p.2 ∧ p.2 ≤ 180) →
    extractTokens (ts.map pointToken) = (ts, [])
  | [], _ => rfl
  | p :: ts, h => by
    rw [List.map_cons, extractTokens, handleToken_point p (h p (List.mem_cons_self _ _)),
      extractTokens_points ts (fun q hq => h q (List.mem_cons_of_mem _ hq))]
    rfl

theorem extractElems_coordElems : ∀ ts : List (ℚ × ℚ),
    (∀ p ∈ ts, -90 ≤ p.1 ∧ p.1 ≤ 90 ∧ -180 ≤ p.2 ∧ p.2 ≤ 180) →
    extractElems (ts.map coordElemOf) = (ts, [])
  | [], _ => rfl
  | p :: ts, h => by
    rw [List.map_cons, extractElems]
    have htext : (coordElemOf p).text = [pointToken p] := rfl
    rw [htext, extractTokens, handleToken_point p (h p (List.mem_cons_self _ _)),
      extractElems_coordElems ts (fun q hq => h q (List.mem_cons_of_mem _ hq))]
    rfl

theorem extract_pathCoordElem (ws : List (ℚ × ℚ))
    (h : ∀ p ∈ ws, -90 ≤ p.1 ∧ p.1 ≤ 90 ∧ -180 ≤ p.2 ∧ p.2 ≤ 180) :
    extractTokens (pathCoordElem ws).text =
      (ws ++ (if 2 < ws.length then ws.take 1 else []), []) := by
  have htext : (pathCoordElem ws).text =
      ws.map pointToken ++ (if 2 < ws.length then (ws.take 1).map pointToken else []) := rfl
  rw [htext, extractTokens_append, extractTokens_points ws h]
  by_cases h2 : 2 < ws.length
  · rw [if_pos h2, if_pos h2,
      extractTokens_points (ws.take 1) (fun q hq => h q (List.mem_of_mem_take hq))]
    rfl
  · rw [if_neg h2, if_neg h2]
    rfl

theorem extract_candidate_create (ws : List (ℚ × ℚ)) (d f : String)
    (h : ∀ p ∈ ws, -90 ≤ p.1 ∧ p.1 ≤ 90 ∧ -180 ≤ p.2 ∧ p.2 ≤ 180) :
    ∃ extra : List (ℚ × ℚ),
      extractElems (candidateCoordElems (create_kml_manual ws d f) (some KML22)) =
        (ws ++ extra, []) ∧ ∀ p ∈ extra, p ∈ ws := by
  rw [candidateCoordElems, findallTag_create, findallUnder_point_create,
    findallUnder_ring_create]
  rw [extractElems_append, extractElems_append, extractElems_append]
  rw [extractElems_coordElems ws h]
  have hpath : extractElems (if 1 < ws.length then [pathCoordElem ws] else []) =
      ((if 1 < ws.length then ws ++ (if 2 < ws.length then ws.take 1 else []) else []), []) := by
    by_cases h1 : 1 < ws.length
    · rw [if_pos h1, if_pos h1, extractElems, extract_pathCoordElem ws h]
      simp [extractElems]
    · rw [if_neg h1, if_neg h1]
      rfl
  rw [hpath]
  refine ⟨((if 1 < ws.length then ws ++ (if 2 < ws.length then ws.take 1 else []) else []) ++
    ws) ++ [], ?_, ?_⟩
  · simp [extractElems, List.append_assoc]
  · intro p hp
    rw [List.append_nil] at hp
    rcases List.mem_append.mp hp with hp | hp
    · by_cases h1 : 1 < ws.length
      · rw [if_pos h1] at hp
        rcases List.mem_append.mp hp with hp | hp
        · exact hp
        · by_cases h2 : 2 < ws.length
          · rw [if_pos h2] at hp
            exact List.mem_of_mem_take hp
          · rw [if_neg h2] at hp
            simp at hp
      · rw [if_neg h1] at hp
        simp at hp
    · exact hp

theorem probeCoords_create (ws : List (ℚ × ℚ)) (d f : String) (hne : ws ≠ [])
    (h : ∀ p ∈ ws, -90 ≤ p.1 ∧ p.1 ≤ 90 ∧ -180 ≤ p.2 ∧ p.2 ≤ 180) :
    ∃ extra : List (ℚ × ℚ),
      probeCoords (create_kml_manual ws d f) = (ws ++ extra, []) ∧ ∀ p ∈ extra, p ∈ ws := by
  obtain ⟨extra, hex, hmem⟩ := extract_candidate_create ws d f h
  refine ⟨extra, ?_, hmem⟩
  rw [probeCoords, namespaceCandidates, probeLoop]
  simp only [hex, List.nil_append, List.append_nil]
  rw [if_neg]
  intro hc
  rw [List.isEmpty_iff] at hc
  exact hne (List.append_eq_nil.mp hc).1

/-! ### Rounding closeness -/

theorem abs_sub_roundHalfEven (q : ℚ) : |q - (roundHalfEven q : ℚ)| ≤ 1/2 := by
  have h1 := Int.floor_le q
  have h2 := Int.lt_floor_add_one q
  rw [roundHalfEven]
  split_ifs with ha hb hc
  · rw [abs_of_nonneg (by linarith)]
    linarith
  · push_neg at ha
    rw [abs_of_nonpos (by push_cast; linarith)]
    push_cast
    linarith
  · push_neg at ha hb
    rw [abs_of_nonneg (by linarith)]
    linarith
  · push_neg at ha hb
    rw [abs_of_nonpos (by push_cast; linarith)]
    push_cast
    linarith

theorem round6_close {a b : ℚ} (h : round6 a = round6 b) : |a - b| ≤ 1/1000000 := by
  have ha := abs_sub_roundHalfEven (a * 1000000)
  have hb := abs_sub_roundHalfEven (b * 1000000)
  rw [round6, round6, div_eq_div_iff (by norm_num) (by norm_num)] at h
  have hr : (roundHalfEven (a * 1000000) : ℚ) = (roundHalfEven (b * 1000000) : ℚ) :=
    mul_right_cancel₀ (by norm_num : (1000000 : ℚ) ≠ 0) h
  have hb' : |(roundHalfEven (b * 1000000) : ℚ) - b * 1000000| ≤ 1/2 := by
    rw [abs_sub_comm]
    exact hb
  have hsum : |a * 1000000 - b * 1000000| ≤ 1 := by
    calc |a * 1000000 - b * 1000000|
        = |(a * 1000000 - (roundHalfEven (a * 1000000) : ℚ)) +
           ((roundHalfEven (b * 1000000) : ℚ) - b * 1000000)| := by
          rw [← hr]
          congr 1
          ring
      _ ≤ |a * 1000000 - (roundHalfEven (a * 1000000) : ℚ)| +
          |(roundHalfEven (b * 1000000) : ℚ) - b * 1000000| := abs_add _ _
      _ ≤ 1/2 + 1/2 := add_le_add ha hb'
      _ = 1 := by norm_num
  have habs : |a - b| * 1000000 = |a * 1000000 - b * 1000000| := by
    have hm : |(a - b) * 1000000| = |a - b| * 1000000 := by
      rw [abs_mul, abs_of_nonneg (by norm_num : (0 : ℚ) ≤ 1000000)]
    rw [← hm]
    congr 1
    ring
  linarith

theorem coordKey_close {p q : ℚ × ℚ} (h : coordKey q = coordKey p) :
    |p.1 - q.1| ≤ 1/1000000 ∧ |p.2 - q.2| ≤ 1/1000000 := by
  rw [coordKey, coordKey, Prod.mk.injEq] at h
  constructor
  · rw [abs_sub_comm]
    exact round6_close h.1
  · rw [abs_sub_comm]
    exact round6_close h.2

/-- C5: for 1 to 26 waypoints with in-range coordinates, parsing the
manually serialized KML document recovers the same set of `(lat, lon)`
points as the input waypoints, ignoring altitude, within a `1e-6` degree
tolerance: every parsed point is one of the waypoints, and every waypoint
has a parsed point within `1e-6` of it in both coordinates. -/
theorem create_parse_roundtrip (waypoints : List (ℚ × ℚ)) (date kml_filename : String)
    (hlen1 : 1 ≤ waypoints.length) (hlen26 : waypoints.length ≤ 26)
    (hrange : ∀ p ∈ waypoints, -90 ≤ p.1 ∧ p.1 ≤ 90 ∧ -180 ≤ p.2 ∧ p.2 ≤ 180) :
    (∀ q ∈ (parse_kml (KmlContent.wellFormed
        (create_kml_manual waypoints date kml_filename))).1, q ∈ waypoints) ∧
    (∀ p ∈ waypoints,
      ∃ q ∈ (parse_kml (KmlContent.wellFormed
          (create_kml_manual waypoints date kml_filename))).1,
        |p.1 - q.1| ≤ 1/1000000 ∧ |p.2 - q.2| ≤ 1/1000000) := by
  have hne : waypoints ≠ [] := by
    intro hc
    rw [hc] at hlen1
    simp at hlen1
  obtain ⟨extra, hpc, hmem⟩ :=
    probeCoords_create waypoints date kml_filename hne hrange
  have hout : (parse_kml (KmlContent.wellFormed
      (create_kml_manual waypoints date kml_filename))).1 =
      uniqueCoords (probeCoords (create_kml_manual waypoints date kml_filename)).1 := rfl
  constructor
  · intro q hq
    rw [hout] at hq
    have hraw := (uniqueAux_sublist _ _).subset hq
    rw [hpc] at hraw
    rcases List.mem_append.mp hraw with hq' | hq'
    · exact hq'
    · exact hmem q hq'
  · intro p hp
    have hpraw : p ∈ (probeCoords (create_kml_manual waypoints date kml_filename)).1 := by
      rw [hpc]
      exact List.mem_append_left _ hp
    rcases uniqueAux_covers _ [] p hpraw with hs | ⟨q, hq, hqk⟩
    · simp at hs
    · refine ⟨q, ?_, coordKey_close hqk⟩
      rw [hout]
      exact hq

/-- Witness for `create_parse_roundtrip` at two concrete waypoints. -/
theorem create_parse_roundtrip_witness :
    (1 ≤ sampleWaypoints.length ∧ sampleWaypoints.length ≤ 26 ∧
      (∀ p ∈ sampleWaypoints, -90 ≤ p.1 ∧ p.1 ≤ 90 ∧ -180 ≤ p.2 ∧ p.2 ≤ 180)) ∧
    ((∀ q ∈ (parse_kml (KmlContent.wellFormed
        (create_kml_manual sampleWaypoints "2024-01-01" "plan"))).1, q ∈ sampleWaypoints) ∧
     (∀ p ∈ sampleWaypoints,
       ∃ q ∈ (parse_kml (KmlContent.wellFormed
           (create_kml_manual sampleWaypoints "2024-01-01" "plan"))).1,
         |p.1 - q.1| ≤ 1/1000000 ∧ |p.2 - q.2| ≤ 1/1000000)) := by
  have hr : ∀ p ∈ sampleWaypoints, -90 ≤ p.1 ∧ p.1 ≤ 90 ∧ -180 ≤ p.2 ∧ p.2 ≤ 180 := by
    intro p hp
    rw [sampleWaypoints] at hp
    rcases List.mem_cons.mp hp with rfl | hp
    · norm_num
    · rcases List.mem_cons.mp hp with rfl | hp
      · norm_num
      · simp at hp
  exact ⟨⟨by rw [sampleWaypoints]; simp, by rw [sampleWaypoints]; simp, hr⟩,
    create_parse_roundtrip sampleWaypoints "2024-01-01" "plan"
      (by rw [sampleWaypoints]; simp) (by rw [sampleWaypoints]; simp) hr⟩
